import Mathlib

/-!
Shallow embedding of the STARK prover pipeline of `starky/src/prover.rs`.

The prover consumes several external collaborators (field and polynomial
engine, Merkle-cap vector commitments, the Fiat-Shamir challenger, the FRI
batched-opening sub-protocol).  Those live outside the core source file and
are modelled from the specification as an abstract record of primitive
operations (`Primitives`), matching the narrow interfaces the prover uses.
The prover itself (`prove`, `computeQuotientPolys`) is translated directly
from the source.  Every run is instrumented with an event log recording the
commitment calls and the transcript interactions, so that temporal claims
about observe/challenge ordering can be stated.
-/

namespace Starky

/-- Error channel of the prover: `panicked` models a Rust panic
(an `assert!` failure or `Result::expect`), while `failed` models a typed
`anyhow::Result` error as produced by `ensure!`. -/
inductive PErr where
  | panicked (msg : String)
  | failed (msg : String)
deriving DecidableEq

/-- Modelled from the spec: the FRI configuration (blow-up rate bits and
Merkle cap height) consumed read-only by the prover. -/
structure FriConfig where
  rate_bits : Nat
  cap_height : Nat
deriving DecidableEq

/-- Modelled from the spec: the prover configuration: number of challenges
plus the FRI configuration. -/
structure StarkConfig where
  num_challenges : Nat
  fri_config : FriConfig
deriving DecidableEq

/-- Modelled from the spec: parameters handed to the FRI opening
sub-protocol, derived from the configuration and `degree_bits`. -/
structure FriParams where
  config : FriConfig
  degree_bits : Nat
deriving DecidableEq

/-- Modelled from the spec: `StarkConfig::fri_params(degree_bits)`. -/
def StarkConfig.friParams (c : StarkConfig) (degree_bits : Nat) : FriParams :=
  ⟨c.fri_config, degree_bits⟩

/-- Modelled from the spec: a `PolynomialBatch` commitment, holding the
committed polynomials, the Merkle cap digest, and the cached LDE rows
answering `get_lde_values`. -/
structure Commitment (F Cap : Type) where
  polynomials : List (List F)
  cap : Cap
  ldeValues : Nat → List F

/-- Modelled from the spec: one entry of the Fiat-Shamir challenger state:
an observed cap, a derived base-field challenge, or a derived
extension-field challenge.  Each derivation extends the state. -/
inductive TEntry (F E Cap : Type) where
  | obsCap (c : Cap)
  | oneChal (x : F)
  | extChal (x : E)
deriving DecidableEq

/-- Modelled from the spec: a consumer command, the effect a constraint
system records into the constraint consumer: a plain constraint, a
first-row-only constraint, a last-row-only constraint, or a transition
constraint. -/
inductive CCmd (F : Type) where
  | basic (v : F)
  | firstRow (v : F)
  | lastRow (v : F)
  | transition (v : F)
deriving DecidableEq

/-- Modelled from the spec: the constraint consumer, seeded with the alpha
vector and the Lagrange-first/Lagrange-last values at the current point,
accumulating one alpha-combined value per alpha. -/
structure ConstraintConsumer (F : Type) where
  alphas : List F
  constraint_accs : List F
  lagrange_basis_first : F
  lagrange_basis_last : F
deriving DecidableEq

/-- Modelled from the spec: `ConstraintConsumer::new`, starting every
accumulator at zero. -/
def ConstraintConsumer.new [Zero F] (alphas : List F) (lf ll : F) :
    ConstraintConsumer F :=
  ⟨alphas, List.replicate alphas.length 0, lf, ll⟩

/-- Modelled from the spec: `ConstraintConsumer::constraint`: every
accumulator is multiplied by its alpha and the constraint value is added. -/
def ConstraintConsumer.constraint [Mul F] [Add F] (c : ConstraintConsumer F)
    (v : F) : ConstraintConsumer F :=
  { c with constraint_accs :=
      (c.alphas.zip c.constraint_accs).map fun p => p.2 * p.1 + v }

/-- Modelled from the spec: a first-row-only constraint is a plain
constraint scaled by the Lagrange-first value held by the consumer. -/
def ConstraintConsumer.constraintFirstRow [Mul F] [Add F]
    (c : ConstraintConsumer F) (v : F) : ConstraintConsumer F :=
  c.constraint (v * c.lagrange_basis_first)

/-- Modelled from the spec: a last-row-only constraint is a plain
constraint scaled by the Lagrange-last value held by the consumer. -/
def ConstraintConsumer.constraintLastRow [Mul F] [Add F]
    (c : ConstraintConsumer F) (v : F) : ConstraintConsumer F :=
  c.constraint (v * c.lagrange_basis_last)

/-- Modelled from the spec: a transition constraint is a plain constraint
scaled by one minus the Lagrange-last value. -/
def ConstraintConsumer.constraintTransition [Mul F] [Add F] [Sub F] [One F]
    (c : ConstraintConsumer F) (v : F) : ConstraintConsumer F :=
  c.constraint (v * (1 - c.lagrange_basis_last))

/-- Modelled from the spec: `ConstraintConsumer::accumulators`. -/
def ConstraintConsumer.accumulators (c : ConstraintConsumer F) : List F :=
  c.constraint_accs

/-- Executes one consumer command against the consumer. -/
def applyCmd [Mul F] [Add F] [Sub F] [One F] (c : ConstraintConsumer F) :
    CCmd F → ConstraintConsumer F
  | CCmd.basic v => c.constraint v
  | CCmd.firstRow v => c.constraintFirstRow v
  | CCmd.lastRow v => c.constraintLastRow v
  | CCmd.transition v => c.constraintTransition v

/-- Executes a list of consumer commands, left to right. -/
def applyCmds [Mul F] [Add F] [Sub F] [One F] (cmds : List (CCmd F))
    (c : ConstraintConsumer F) : ConstraintConsumer F :=
  cmds.foldl applyCmd c

/-- Modelled from the spec: the constraint-system capability (the `Stark`
trait): an evaluation entry point taking the local row, the next row and
the public inputs, whose effects on the consumer are represented as the
command list it issues, plus the opening-instance descriptor
`fri_instance`. -/
structure Stark (F E Inst : Type) where
  evalPackedBase : List F → List F → List F → List (CCmd F)
  friInstance : E → E → Nat → Inst

/-- Modelled from the spec: the bundle of external primitives the prover
consumes: the two commitment constructors (from values and from
coefficients), the deterministic challenger derivations, the polynomial
engine (LDE, subgroup, vanishing-polynomial inverse table, coset inverse
FFT, coset shift), the extension-field utilities, and the FRI
batched-opening driver. -/
structure Primitives (F E Cap OP Inst : Type) where
  fromValues : List (List F) → Nat → Bool → Nat → Commitment F Cap
  fromCoeffs : List (List F) → Nat → Bool → Nat → Commitment F Cap
  challengeOne : List (TEntry F E Cap) → F
  challengeExt : List (TEntry F E Cap) → E
  ldeF : List F → Nat → List F
  twoAdicSubgroup : Nat → List F
  zhInv : Nat → Nat → Nat → F
  cosetIfft : List F → F → List F
  cosetShift : F
  primitiveRootOfUnity : Nat → E
  toExt : F → E
  proveOpenings : Inst → List (Commitment F Cap) → List (TEntry F E Cap) →
    FriParams → OP

/-- Modelled from the spec: the opening set: evaluations of the committed
polynomials at `zeta` and at `g * zeta`. -/
structure StarkOpeningSet (E : Type) where
  zeta_evaluations : List E
  g_zeta_evaluations : List E
deriving DecidableEq

/-- The produced proof object: trace commitment cap, opening set, and the
opaque batched opening proof. -/
structure StarkProof (E Cap OP : Type) where
  trace_cap : Cap
  openings : StarkOpeningSet E
  opening_proof : OP
deriving DecidableEq

/-- One entry of the instrumentation log of a proving run: a commitment
call (with its blinding flag), a transcript interaction, the opening-set
construction, or the hand-off to the FRI sub-protocol. -/
inductive PEvent (F E Cap : Type) where
  | commitValues (polys : List (List F)) (rate_bits : Nat) (blinding : Bool)
      (cap_height : Nat)
  | commitCoeffs (polys : List (List F)) (rate_bits : Nat) (blinding : Bool)
      (cap_height : Nat)
  | observeCap (c : Cap)
  | getChallenges (n : Nat) (out : List F)
  | getExtChallenge (out : E)
  | buildOpenings
  | friProve
deriving DecidableEq

/-- Selects the transcript interactions among the logged events. -/
def isTranscriptEvent : PEvent F E Cap → Bool
  | PEvent.observeCap _ => true
  | PEvent.getChallenges _ _ => true
  | PEvent.getExtChallenge _ => true
  | _ => false

/-- The blinding flag carried by a commitment-call event, if any. -/
def blindingArg : PEvent F E Cap → Option Bool
  | PEvent.commitValues _ _ b _ => some b
  | PEvent.commitCoeffs _ _ b _ => some b
  | _ => none

/-- Recognizes a typed (non-panic) failure result. -/
def isTypedFailure : Except PErr α → Bool
  | Except.error (PErr.failed _) => true
  | _ => false

/-- Fuel-driven binary logarithm, structurally recursive so that it
evaluates inside the kernel; with fuel at least `n` it agrees with
`Nat.log2`. -/
def log2Fuel : Nat → Nat → Nat
  | 0, _ => 0
  | f + 1, n => if 2 ≤ n then log2Fuel f (n / 2) + 1 else 0

/-- Modelled from the spec: `log2_strict` from the utility crate, which
asserts (panics) unless its argument is a power of two, and returns the
exponent. -/
def log2_strict (n : Nat) : Except PErr Nat :=
  if n = 2 ^ log2Fuel n n then Except.ok (log2Fuel n n)
  else Except.error (PErr.panicked "Not a power of two")

/-- Modelled from the spec: `PolynomialCoeffs::trim`, removing trailing
zero coefficients. -/
def trim [Zero F] [DecidableEq F] (coeffs : List F) : List F :=
  (coeffs.reverse.dropWhile fun c => decide (c = 0)).reverse

/-- Modelled from the spec: `PolynomialCoeffs::pad`, zero-padding the
coefficients to the given length and failing with a typed error when the
polynomial is already longer than that. -/
def padPoly [Zero F] (coeffs : List F) (new_len : Nat) :
    Except String (List F) :=
  if coeffs.length ≤ new_len then
    Except.ok (coeffs ++ List.replicate (new_len - coeffs.length) 0)
  else Except.error "Trying to pad a polynomial to a smaller length"

/-- Modelled from the spec: Rust `Result::expect`, which converts a typed
error into a panic carrying the given message. -/
def expectE (msg : String) : Except String α → Except PErr α
  | Except.ok a => Except.ok a
  | Except.error _ => Except.error (PErr.panicked msg)

/-- Fuel-driven worker for `chunksOf`, structurally recursive so that it
evaluates inside the kernel. -/
def chunksOfFuel (k : Nat) : Nat → List α → List (List α)
  | 0, _ => []
  | f + 1, l =>
    if k = 0 then []
    else
      match l with
      | [] => []
      | x :: xs =>
          (x :: xs.take (k - 1)) :: chunksOfFuel k f (xs.drop (k - 1))

/-- Modelled from the spec: `PolynomialCoeffs::chunks`, splitting the
coefficient list into consecutive chunks of the given size. -/
def chunksOf (k : Nat) (l : List α) : List (List α) :=
  chunksOfFuel k l.length l

/-- Effectful map over a list in the `Except` monad, stopping at the first
failure: the sequential semantics of the `flat_map` whose panic aborts the
whole proving call. -/
def mapME (f : α → Except ε β) : List α → Except ε (List β)
  | [] => Except.ok []
  | a :: l =>
    match f a with
    | Except.error e => Except.error e
    | Except.ok b => (mapME f l).map fun bs => b :: bs

/-- Modelled from the spec: `Field::exp_power_of_2`, squaring the argument
`k` times. -/
def expPowerOf2 [Mul E] (x : E) : Nat → E
  | 0 => x
  | k + 1 => expPowerOf2 x k * expPowerOf2 x k

/-- Modelled from the spec: evaluation of a base-field coefficient list at
an extension-field point, by Horner's rule through the coercion `toE`. -/
def evalAt [Add E] [Mul E] [Zero E] (toE : F → E) (x : E) (coeffs : List F) :
    E :=
  coeffs.foldr (fun a acc => toE a + x * acc) 0

/-- Modelled from the spec: `util::transpose` on a rectangular row-major
matrix, the width being taken from the first row. -/
def transposeM [Zero F] (m : List (List F)) : List (List F) :=
  (List.range (m.headD []).length).map fun i => m.map fun row => row.getD i 0

/-- Modelled from the spec: `StarkOpeningSet::new`: evaluations of the
trace and quotient commitments' polynomials at `zeta` and `g * zeta`. -/
def StarkOpeningSet.new [Add E] [Mul E] [Zero E] (toE : F → E) (zeta g : E)
    (tc qc : Commitment F Cap) : StarkOpeningSet E :=
  { zeta_evaluations :=
      (tc.polynomials ++ qc.polynomials).map (evalAt toE zeta)
    g_zeta_evaluations :=
      (tc.polynomials ++ qc.polynomials).map (evalAt toE (g * zeta)) }

/-- Modelled from the spec: `Challenger::get_n_challenges`, deriving `n`
base-field challenges one after the other, each derivation extending the
challenger state. -/
def getNChallenges (P : Primitives F E Cap OP Inst) :
    Nat → List (TEntry F E Cap) → List F × List (TEntry F E Cap)
  | 0, h => ([], h)
  | Nat.succ n, h =>
    let x := P.challengeOne h
    let r := getNChallenges P n (h ++ [TEntry.oneChal x])
    (x :: r.1, r.2)

/-- The trace polynomial values: the row-major trace transposed to
column-major, one value column per trace column (source lines 41-51). -/
def tracePolyValues [Zero F] (trace : List (List F)) : List (List F) :=
  transposeM trace

/-- The LDE of the first Lagrange indicator polynomial of the trace
subgroup (source lines 163-167). -/
def lagrangeFirstLde [Zero F] [One F] (P : Primitives F E Cap OP Inst)
    (degree_bits rate_bits : Nat) : List F :=
  P.ldeF ((List.replicate (1 <<< degree_bits) (0 : F)).set 0 1) rate_bits

/-- The LDE of the last Lagrange indicator polynomial of the trace
subgroup (source lines 169-173). -/
def lagrangeLastLde [Zero F] [One F] (P : Primitives F E Cap OP Inst)
    (degree_bits rate_bits : Nat) : List F :=
  P.ldeF
    ((List.replicate (1 <<< degree_bits) (0 : F)).set
      ((1 <<< degree_bits) - 1) 1) rate_bits

/-- Per-point body of the quotient evaluation (source lines 184-204): seed
a consumer with the alphas and the Lagrange values at `i`, feed it the
constraint evaluation over the local row `i` and the next row
`(i + 1) % (degree << rate_bits)`, and scale each accumulator by the
`Z_H` inverse at `i`. -/
def quotientValuesAt [CommRing F] (P : Primitives F E Cap OP Inst)
    (stark : Stark F E Inst) (tc : Commitment F Cap)
    (public_inputs alphas : List F) (degree_bits rate_bits : Nat)
    (lagrange_first lagrange_last : List F) (i : Nat) : List F :=
  let n := (1 <<< degree_bits) <<< rate_bits
  let consumer := ConstraintConsumer.new alphas (lagrange_first.getD i 0)
    (lagrange_last.getD i 0)
  let cmds := stark.evalPackedBase (tc.ldeValues i)
    (tc.ldeValues ((i + 1) % n)) public_inputs
  ((applyCmds cmds consumer).accumulators).map fun e =>
    e * P.zhInv degree_bits rate_bits i

/-- `compute_quotient_polys` (source lines 144-212): evaluate the combined
constraints over the LDE domain, then transpose the per-point accumulator
vectors into per-alpha value vectors and coset-inverse-FFT each. -/
def computeQuotientPolys [CommRing F] (P : Primitives F E Cap OP Inst)
    (stark : Stark F E Inst) (tc : Commitment F Cap)
    (public_inputs alphas : List F) (degree_bits rate_bits : Nat) :
    List (List F) :=
  let degree := 1 <<< degree_bits
  let _points := P.twoAdicSubgroup (degree_bits + rate_bits)
  let lagrange_first := lagrangeFirstLde P degree_bits rate_bits
  let lagrange_last := lagrangeLastLde P degree_bits rate_bits
  let quotient_values := (List.range (degree <<< rate_bits)).map
    (quotientValuesAt P stark tc public_inputs alphas degree_bits rate_bits
      lagrange_first lagrange_last)
  (transposeM quotient_values).map fun values =>
    P.cosetIfft values P.cosetShift

/-- Scheduled variant of `computeQuotientPolys`, modelling the data-parallel
evaluation: the per-point work units are executed in the order given by
`sched` and their results are then collected into the output slots by
index. -/
def computeQuotientPolysSched [CommRing F] (sched : List Nat)
    (P : Primitives F E Cap OP Inst) (stark : Stark F E Inst)
    (tc : Commitment F Cap) (public_inputs alphas : List F)
    (degree_bits rate_bits : Nat) : List (List F) :=
  let degree := 1 <<< degree_bits
  let _points := P.twoAdicSubgroup (degree_bits + rate_bits)
  let lagrange_first := lagrangeFirstLde P degree_bits rate_bits
  let lagrange_last := lagrangeLastLde P degree_bits rate_bits
  let pairs := sched.map fun i =>
    (i, quotientValuesAt P stark tc public_inputs alphas degree_bits
      rate_bits lagrange_first lagrange_last i)
  let quotient_values := (List.range (degree <<< rate_bits)).map fun j =>
    (pairs.lookup j).getD []
  (transposeM quotient_values).map fun values =>
    P.cosetIfft values P.cosetShift

/-- Per-quotient-polynomial processing (source lines 83-90): trim the
trailing zeros, pad to the target length (panicking through `expect` when
the polynomial is too long), and split into `degree`-sized chunks. -/
def processQuotient [CommRing F] [DecidableEq F] (degree target : Nat)
    (q : List F) : Except PErr (List (List F)) :=
  (expectE
    "Quotient has failed, the vanishing polynomial is not divisible by `Z_H"
    (padPoly (trim q) target)).map (chunksOf degree)

/-- The trace commitment (source lines 55-66). -/
def traceCommitmentOf [Zero F] (P : Primitives F E Cap OP Inst)
    (config : StarkConfig) (trace : List (List F)) : Commitment F Cap :=
  P.fromValues (tracePolyValues trace) config.fri_config.rate_bits false
    config.fri_config.cap_height

/-- The trace commitment cap (source line 68). -/
def traceCapOf [Zero F] (P : Primitives F E Cap OP Inst)
    (config : StarkConfig) (trace : List (List F)) : Cap :=
  (traceCommitmentOf P config trace).cap

/-- The challenger state after observing the trace cap (source lines
69-70). -/
def hist1Of [Zero F] (P : Primitives F E Cap OP Inst) (config : StarkConfig)
    (trace : List (List F)) : List (TEntry F E Cap) :=
  [TEntry.obsCap (traceCapOf P config trace)]

/-- The alphas: `num_challenges` base-field challenges derived after the
trace cap is observed (source line 72). -/
def alphasOf [Zero F] (P : Primitives F E Cap OP Inst) (config : StarkConfig)
    (trace : List (List F)) : List F :=
  (getNChallenges P config.num_challenges (hist1Of P config trace)).1

/-- The challenger state after the alphas have been derived. -/
def hist2Of [Zero F] (P : Primitives F E Cap OP Inst) (config : StarkConfig)
    (trace : List (List F)) : List (TEntry F E Cap) :=
  (getNChallenges P config.num_challenges (hist1Of P config trace)).2

/-- The quotient polynomials computed by the prover (source lines 73-80). -/
def quotientPolysOf [CommRing F] (P : Primitives F E Cap OP Inst)
    (stark : Stark F E Inst) (config : StarkConfig) (trace : List (List F))
    (public_inputs : List F) (degree_bits : Nat) : List (List F) :=
  computeQuotientPolys P stark (traceCommitmentOf P config trace)
    public_inputs (alphasOf P config trace) degree_bits
    config.fri_config.rate_bits

/-- Total form of trimming followed by successful zero-padding. -/
def paddedOf [Zero F] [DecidableEq F] (target : Nat) (q : List F) : List F :=
  trim q ++ List.replicate (target - (trim q).length) 0

/-- The flattened list of `degree`-sized quotient chunks across all alphas,
in the success case (source lines 81-91). -/
def allChunksOf [CommRing F] [DecidableEq F] (P : Primitives F E Cap OP Inst)
    (stark : Stark F E Inst) (config : StarkConfig) (trace : List (List F))
    (public_inputs : List F) (degree_bits : Nat) : List (List F) :=
  ((quotientPolysOf P stark config trace public_inputs degree_bits).map
    fun q => chunksOf trace.length
      (paddedOf (trace.length <<< config.fri_config.rate_bits) q)).flatten

/-- The quotient commitment (source lines 92-103). -/
def quotientCommitmentOf [CommRing F] [DecidableEq F]
    (P : Primitives F E Cap OP Inst) (stark : Stark F E Inst)
    (config : StarkConfig) (trace : List (List F)) (public_inputs : List F)
    (degree_bits : Nat) : Commitment F Cap :=
  P.fromCoeffs
    (allChunksOf P stark config trace public_inputs degree_bits)
    config.fri_config.rate_bits false config.fri_config.cap_height

/-- The challenger state after observing the quotient cap (source line
104). -/
def hist3Of [CommRing F] [DecidableEq F] (P : Primitives F E Cap OP Inst)
    (stark : Stark F E Inst) (config : StarkConfig) (trace : List (List F))
    (public_inputs : List F) (degree_bits : Nat) : List (TEntry F E Cap) :=
  hist2Of P config trace ++
    [TEntry.obsCap
      (quotientCommitmentOf P stark config trace public_inputs
        degree_bits).cap]

/-- The opening point `zeta`: the extension-field challenge derived after
both caps are observed (source line 106). -/
def zetaOf [CommRing F] [DecidableEq F] (P : Primitives F E Cap OP Inst)
    (stark : Stark F E Inst) (config : StarkConfig) (trace : List (List F))
    (public_inputs : List F) (degree_bits : Nat) : E :=
  P.challengeExt (hist3Of P stark config trace public_inputs degree_bits)

/-- The challenger state after `zeta` has been derived: the state handed to
the FRI batched-opening sub-protocol. -/
def hist4Of [CommRing F] [DecidableEq F] (P : Primitives F E Cap OP Inst)
    (stark : Stark F E Inst) (config : StarkConfig) (trace : List (List F))
    (public_inputs : List F) (degree_bits : Nat) : List (TEntry F E Cap) :=
  hist3Of P stark config trace public_inputs degree_bits ++
    [TEntry.extChal (zetaOf P stark config trace public_inputs degree_bits)]

/-- The events logged before the quotient processing: the trace commitment
call, the trace-cap observation, and the alpha derivation. -/
def preLogOf [Zero F] (P : Primitives F E Cap OP Inst) (config : StarkConfig)
    (trace : List (List F)) : List (PEvent F E Cap) :=
  [PEvent.commitValues (tracePolyValues trace) config.fri_config.rate_bits
      false config.fri_config.cap_height,
   PEvent.observeCap (traceCapOf P config trace),
   PEvent.getChallenges config.num_challenges (alphasOf P config trace)]

/-- `prove` (source lines 24-138), translated stage by stage, paired with
the instrumentation log of its commitment calls and transcript
interactions. -/
def prove [CommRing F] [DecidableEq F] [Mul E] [Add E] [Zero E] [One E]
    [DecidableEq E] (P : Primitives F E Cap OP Inst)
    (stark : Stark F E Inst) (config : StarkConfig) (trace : List (List F))
    (public_inputs : List F) :
    Except PErr (StarkProof E Cap OP) × List (PEvent F E Cap) :=
  match log2_strict trace.length with
  | Except.error e => (Except.error e, [])
  | Except.ok degree_bits =>
    let degree := trace.length
    let rate_bits := config.fri_config.rate_bits
    let cap_height := config.fri_config.cap_height
    let trace_commitment := traceCommitmentOf P config trace
    let alphas := alphasOf P config trace
    let quotient_polys := computeQuotientPolys P stark trace_commitment
      public_inputs alphas degree_bits rate_bits
    let log0 := preLogOf P config trace
    match mapME (processQuotient degree (degree <<< rate_bits))
        quotient_polys with
    | Except.error e => (Except.error e, log0)
    | Except.ok chunk_lists =>
      let all_quotient_chunks := chunk_lists.flatten
      let quotient_commitment := P.fromCoeffs all_quotient_chunks rate_bits
        false cap_height
      let hist3 := hist2Of P config trace ++
        [TEntry.obsCap quotient_commitment.cap]
      let zeta := P.challengeExt hist3
      let hist4 := hist3 ++ [TEntry.extChal zeta]
      let g : E := P.primitiveRootOfUnity degree_bits
      let log1 := log0 ++
        [PEvent.commitCoeffs all_quotient_chunks rate_bits false cap_height,
         PEvent.observeCap quotient_commitment.cap,
         PEvent.getExtChallenge zeta]
      if expPowerOf2 zeta degree_bits = 1 then
        (Except.error (PErr.failed "Opening point is in the subgroup."),
         log1)
      else
        let openings := StarkOpeningSet.new P.toExt zeta g trace_commitment
          quotient_commitment
        let fri_params := config.friParams degree_bits
        let opening_proof := P.proveOpenings
          (stark.friInstance zeta g rate_bits)
          [trace_commitment, quotient_commitment] hist4 fri_params
        (Except.ok ⟨trace_commitment.cap, openings, opening_proof⟩,
         log1 ++ [PEvent.buildOpenings, PEvent.friProve])

/-- `prove` with the data-parallel quotient evaluation executed in the
order given by `sched`: identical to `prove` except that
`computeQuotientPolysSched sched` replaces `computeQuotientPolys`. -/
def proveSched [CommRing F] [DecidableEq F] [Mul E] [Add E] [Zero E] [One E]
    [DecidableEq E] (sched : List Nat) (P : Primitives F E Cap OP Inst)
    (stark : Stark F E Inst) (config : StarkConfig) (trace : List (List F))
    (public_inputs : List F) :
    Except PErr (StarkProof E Cap OP) × List (PEvent F E Cap) :=
  match log2_strict trace.length with
  | Except.error e => (Except.error e, [])
  | Except.ok degree_bits =>
    let degree := trace.length
    let rate_bits := config.fri_config.rate_bits
    let cap_height := config.fri_config.cap_height
    let trace_commitment := traceCommitmentOf P config trace
    let alphas := alphasOf P config trace
    let quotient_polys := computeQuotientPolysSched sched P stark
      trace_commitment public_inputs alphas degree_bits rate_bits
    let log0 := preLogOf P config trace
    match mapME (processQuotient degree (degree <<< rate_bits))
        quotient_polys with
    | Except.error e => (Except.error e, log0)
    | Except.ok chunk_lists =>
      let all_quotient_chunks := chunk_lists.flatten
      let quotient_commitment := P.fromCoeffs all_quotient_chunks rate_bits
        false cap_height
      let hist3 := hist2Of P config trace ++
        [TEntry.obsCap quotient_commitment.cap]
      let zeta := P.challengeExt hist3
      let hist4 := hist3 ++ [TEntry.extChal zeta]
      let g : E := P.primitiveRootOfUnity degree_bits
      let log1 := log0 ++
        [PEvent.commitCoeffs all_quotient_chunks rate_bits false cap_height,
         PEvent.observeCap quotient_commitment.cap,
         PEvent.getExtChallenge zeta]
      if expPowerOf2 zeta degree_bits = 1 then
        (Except.error (PErr.failed "Opening point is in the subgroup."),
         log1)
      else
        let openings := StarkOpeningSet.new P.toExt zeta g trace_commitment
          quotient_commitment
        let fri_params := config.friParams degree_bits
        let opening_proof := P.proveOpenings
          (stark.friInstance zeta g rate_bits)
          [trace_commitment, quotient_commitment] hist4 fri_params
        (Except.ok ⟨trace_commitment.cap, openings, opening_proof⟩,
         log1 ++ [PEvent.buildOpenings, PEvent.friProve])

/-- The effective constraint value a consumer command contributes, given
the Lagrange-first and Lagrange-last values held by the consumer. -/
def specConstraintValue [Mul F] [Sub F] [One F] (lf ll : F) : CCmd F → F
  | CCmd.basic v => v
  | CCmd.firstRow v => v * lf
  | CCmd.lastRow v => v * ll
  | CCmd.transition v => v * (1 - ll)

/-- Modelled from the spec: the alpha combination the consumer computes:
for each alpha, the power-weighted sum of the accumulated constraint
values. -/
def specCombined [CommRing F] (alphas cs : List F) : List F :=
  alphas.map fun a =>
    ∑ i ∈ Finset.range cs.length, a ^ i * cs.reverse.getD i 0

/-- Written from the specification's words (section 4.3): at point `i`,
the per-alpha accumulator is the power-weighted alpha combination of the
effective constraint values over the local row `i` and the next row
`(i + 1) mod domain_size`, multiplied by the `Z_H` inverse at `i`. -/
def specQuotientValuesAt [CommRing F] (P : Primitives F E Cap OP Inst)
    (stark : Stark F E Inst) (tc : Commitment F Cap)
    (public_inputs alphas : List F) (degree_bits rate_bits : Nat)
    (lagrange_first lagrange_last : List F) (i : Nat) : List F :=
  let n := (1 <<< degree_bits) <<< rate_bits
  let cs := (stark.evalPackedBase (tc.ldeValues i)
      (tc.ldeValues ((i + 1) % n)) public_inputs).map
    (specConstraintValue (lagrange_first.getD i 0) (lagrange_last.getD i 0))
  (specCombined alphas cs).map fun e => e * P.zhInv degree_bits rate_bits i

/-- Written from the specification's words (section 4.3): evaluate at every
LDE-domain point, transpose the per-point vectors into per-alpha value
vectors, and coset-inverse-FFT each into coefficient form. -/
def specQuotientPolys [CommRing F] (P : Primitives F E Cap OP Inst)
    (stark : Stark F E Inst) (tc : Commitment F Cap)
    (public_inputs alphas : List F) (degree_bits rate_bits : Nat) :
    List (List F) :=
  let degree := 1 <<< degree_bits
  let lagrange_first := lagrangeFirstLde P degree_bits rate_bits
  let lagrange_last := lagrangeLastLde P degree_bits rate_bits
  let quotient_values := (List.range (degree <<< rate_bits)).map
    (specQuotientValuesAt P stark tc public_inputs alphas degree_bits
      rate_bits lagrange_first lagrange_last)
  (transposeM quotient_values).map fun values =>
    P.cosetIfft values P.cosetShift

deriving instance DecidableEq for Except

/-- Concrete constraint system over the integers used to exercise the
pipeline on closed inputs: a single plain constraint reading the first
entry of the local row. -/
def tStark : Stark Int Int Int :=
  { evalPackedBase := fun lv _ _ => [CCmd.basic (lv.getD 0 0)]
    friInstance := fun _ _ _ => 5 }

/-- Concrete configuration used to exercise the pipeline on closed
inputs. -/
def tConfig : StarkConfig :=
  { num_challenges := 1, fri_config := { rate_bits := 1, cap_height := 0 } }

/-- Concrete primitives over the integers used to exercise the pipeline on
closed inputs. -/
def tPrim : Primitives Int Int Int Int Int :=
  { fromValues := fun polys _ _ _ =>
      { polynomials := polys, cap := polys.flatten.sum
        ldeValues := fun i => polys.map fun p => p.getD i 0 }
    fromCoeffs := fun polys _ _ _ =>
      { polynomials := polys, cap := polys.flatten.sum + 100
        ldeValues := fun i => polys.map fun p => p.getD i 0 }
    challengeOne := fun h => (h.length : Int)
    challengeExt := fun h => (h.length : Int)
    ldeF := fun v _ => v ++ v
    twoAdicSubgroup := fun _ => []
    zhInv := fun _ _ _ => 1
    cosetIfft := fun v _ => v
    cosetShift := 1
    primitiveRootOfUnity := fun _ => 1
    toExt := fun x => x
    proveOpenings := fun _ _ _ _ => 7 }

/-- Concrete primitives whose coset inverse FFT returns an oversized
polynomial, driving the quotient padding into its failure path. -/
def tPrimBad : Primitives Int Int Int Int Int :=
  { tPrim with cosetIfft := fun _ _ => [1, 1, 1, 1] }

/-- Concrete primitives whose extension challenge always lands inside the
evaluation subgroup (every derived challenge equals one). -/
def tPrimSub : Primitives Int Int Int Int Int :=
  { tPrim with challengeExt := fun _ => 1 }

theorem log2Fuel_eq (f n : Nat) (h : n ≤ f) : log2Fuel f n = Nat.log2 n := by
  induction f generalizing n with
  | zero =>
      have hn : n = 0 := by omega
      subst hn
      rw [Nat.log2]
      simp [log2Fuel]
  | succ f ih =>
      rw [Nat.log2]
      by_cases h2 : 2 ≤ n
      · rw [show log2Fuel (f + 1) n
              = if 2 ≤ n then log2Fuel f (n / 2) + 1 else 0 from rfl,
          if_pos h2, if_pos h2, ih _ (by omega)]
      · rw [show log2Fuel (f + 1) n
              = if 2 ≤ n then log2Fuel f (n / 2) + 1 else 0 from rfl,
          if_neg h2, if_neg h2]

theorem log2_strict_ok_iff (n k : Nat) :
    log2_strict n = Except.ok k ↔ n = 2 ^ k := by
  have hfe : log2Fuel n n = Nat.log2 n := log2Fuel_eq n n le_rfl
  constructor
  · intro h
    unfold log2_strict at h
    split at h
    · next hc =>
        injection h with h2
        rw [← h2]
        exact hc
    · exact Except.noConfusion h
  · intro h
    have hk : log2Fuel n n = k := by
      rw [hfe, h, Nat.log2_eq_log_two, Nat.log_pow Nat.one_lt_two]
    simp [log2_strict, hk, ← h]

theorem pow_two_ex_iff (n : Nat) :
    (∃ k, n = 2 ^ k) ↔ n = 2 ^ log2Fuel n n := by
  have hfe : log2Fuel n n = Nat.log2 n := log2Fuel_eq n n le_rfl
  constructor
  · rintro ⟨k, hk⟩
    have hlk : Nat.log2 n = k := by
      rw [hk, Nat.log2_eq_log_two, Nat.log_pow Nat.one_lt_two]
    rw [hfe, hlk]
    exact hk
  · intro h
    exact ⟨_, h⟩

theorem log2_strict_err (n : Nat) (h : ¬∃ k, n = 2 ^ k) :
    log2_strict n = Except.error (PErr.panicked "Not a power of two") := by
  unfold log2_strict
  rw [if_neg]
  intro hc
  exact h ((pow_two_ex_iff n).mpr hc)

theorem expPowerOf2_eq_pow [Monoid E] (x : E) (k : Nat) :
    expPowerOf2 x k = x ^ (2 ^ k) := by
  induction k with
  | zero => simp [expPowerOf2]
  | succ k ih =>
      have h2 : (2 : Nat) ^ (k + 1) = 2 ^ k + 2 ^ k := by
        rw [pow_succ]
        omega
      rw [show expPowerOf2 x (k + 1)
            = expPowerOf2 x k * expPowerOf2 x k from rfl,
          ih, h2, pow_add]

theorem zip_map_self_map [Mul F] [Add F] (l : List F) (g : F → F) (v : F) :
    ((l.zip (l.map g)).map fun p => p.2 * p.1 + v)
      = l.map fun a => g a * a + v := by
  induction l with
  | nil => rfl
  | cons a l ih => simp [ih]

theorem applyCmd_eq_constraint [Mul F] [Add F] [Sub F] [One F]
    (c : ConstraintConsumer F) (cmd : CCmd F) :
    applyCmd c cmd
      = c.constraint
          (specConstraintValue c.lagrange_basis_first c.lagrange_basis_last
            cmd) := by
  cases cmd <;> rfl

theorem constraint_map [Mul F] [Add F] (alphas : List F) (g : F → F)
    (lf ll v : F) :
    ConstraintConsumer.constraint ⟨alphas, alphas.map g, lf, ll⟩ v
      = ⟨alphas, alphas.map fun a => g a * a + v, lf, ll⟩ := by
  simp [ConstraintConsumer.constraint, zip_map_self_map]

theorem applyCmds_accs [Mul F] [Add F] [Sub F] [One F] (cmds : List (CCmd F))
    (alphas : List F) (lf ll : F) (g : F → F) :
    applyCmds cmds ⟨alphas, alphas.map g, lf, ll⟩
      = ⟨alphas,
         alphas.map fun a =>
           (cmds.map (specConstraintValue lf ll)).foldl
             (fun acc v => acc * a + v) (g a), lf, ll⟩ := by
  induction cmds generalizing g with
  | nil => simp [applyCmds]
  | cons cmd tl ih =>
      rw [show applyCmds (cmd :: tl)
            (⟨alphas, alphas.map g, lf, ll⟩ : ConstraintConsumer F)
          = applyCmds tl
              (applyCmd ⟨alphas, alphas.map g, lf, ll⟩ cmd) from rfl,
        applyCmd_eq_constraint]
      simp only [constraint_map]
      rw [ih]
      simp [List.foldl_cons]

theorem foldl_horner [CommRing F] (x a : F) (vs : List F) :
    vs.foldl (fun acc v => acc * x + v) a
      = a * x ^ vs.length
        + ∑ i ∈ Finset.range vs.length, x ^ i * vs.reverse.getD i 0 := by
  induction vs generalizing a with
  | nil => simp
  | cons v tl ih =>
      rw [List.foldl_cons, ih, List.reverse_cons, List.length_cons,
        Finset.sum_range_succ]
      have hgetlast : (tl.reverse ++ [v]).getD tl.length 0 = v := by
        rw [List.getD_append_right _ _ _ _ (by simp)]
        simp
      have hgets : ∀ i ∈ Finset.range tl.length,
          x ^ i * (tl.reverse ++ [v]).getD i 0
            = x ^ i * tl.reverse.getD i 0 := by
        intro i hi
        rw [List.getD_append _ _ _ _ (by simp [List.mem_range.mp hi])]
      rw [Finset.sum_congr rfl hgets, hgetlast]
      ring

theorem accumulators_spec [CommRing F] (alphas : List F) (lf ll : F)
    (cmds : List (CCmd F)) :
    (applyCmds cmds (ConstraintConsumer.new alphas lf ll)).accumulators
      = specCombined alphas (cmds.map (specConstraintValue lf ll)) := by
  have hnew : ConstraintConsumer.new alphas lf ll
      = (⟨alphas, alphas.map fun _ => (0 : F), lf, ll⟩ :
          ConstraintConsumer F) := by
    simp [ConstraintConsumer.new]
  rw [hnew, applyCmds_accs]
  simp [ConstraintConsumer.accumulators, specCombined, foldl_horner]

theorem mapME_ok (f : α → Except ε β) (g : α → β) (l : List α)
    (h : ∀ a ∈ l, f a = Except.ok (g a)) :
    mapME f l = Except.ok (l.map g) := by
  induction l with
  | nil => rfl
  | cons a tl ih =>
      rw [mapME, h a (by simp), ih fun x hx => h x (by simp [hx])]
      rfl

theorem mapME_error (f : α → Except ε β) (g : α → β) (e0 : ε) (l : List α)
    (hall : ∀ a ∈ l, f a = Except.ok (g a) ∨ f a = Except.error e0)
    (hex : ∃ a ∈ l, f a = Except.error e0) :
    mapME f l = Except.error e0 := by
  induction l with
  | nil =>
      rcases hex with ⟨a, ha, _⟩
      cases ha
  | cons a tl ih =>
      rcases hall a (by simp) with hok | herr
      · have hex' : ∃ x ∈ tl, f x = Except.error e0 := by
          rcases hex with ⟨y, hy, hfy⟩
          rcases List.mem_cons.mp hy with rfl | hytl
          · rw [hok] at hfy
            exact Except.noConfusion hfy
          · exact ⟨y, hytl, hfy⟩
        rw [mapME, hok, ih (fun y hy => hall y (by simp [hy])) hex']
        rfl
      · rw [mapME, herr]

theorem lookup_map_pair (f : Nat → α) (sched : List Nat) (j : Nat)
    (h : j ∈ sched) :
    (sched.map fun i => (i, f i)).lookup j = some (f j) := by
  induction sched with
  | nil => cases h
  | cons a tl ih =>
      by_cases hj : a = j
      · subst hj
        simp [List.lookup]
      · rcases List.mem_cons.mp h with rfl | htl
        · exact absurd rfl hj
        · rw [List.map_cons, List.lookup, beq_eq_false_iff_ne.mpr (Ne.symm hj)]
          exact ih htl

theorem transposeM_length [Zero F] (m : List (List F)) :
    (transposeM m).length = (m.headD []).length := by
  simp [transposeM]

theorem headD_map_range (f : Nat → α) (n : Nat) (d : α) (h : 0 < n) :
    ((List.range n).map f).headD d = f 0 := by
  cases n with
  | zero => omega
  | succ m =>
      rw [List.range_succ_eq_map]
      simp

theorem paddedOf_length [Zero F] [DecidableEq F] (target : Nat) (q : List F)
    (h : (trim q).length ≤ target) :
    (paddedOf target q).length = target := by
  simp [paddedOf]
  omega

theorem chunksOfFuel_nil (k f : Nat) :
    chunksOfFuel k f ([] : List α) = [] := by
  cases f <;> simp [chunksOfFuel]

theorem chunksOfFuel_congr (k : Nat) (f g : Nat) (l : List α)
    (hf : l.length ≤ f) (hg : l.length ≤ g) :
    chunksOfFuel k f l = chunksOfFuel k g l := by
  induction f generalizing g l with
  | zero =>
      have hnil : l = [] := List.length_eq_zero.mp (by omega)
      subst hnil
      rw [chunksOfFuel_nil, chunksOfFuel_nil]
  | succ f ih =>
      cases l with
      | nil => rw [chunksOfFuel_nil, chunksOfFuel_nil]
      | cons x xs =>
          cases g with
          | zero => exact absurd hg (by simp)
          | succ g =>
              by_cases hk : k = 0
              · simp [chunksOfFuel, hk]
              · simp only [chunksOfFuel, if_neg hk]
                congr 1
                refine ih g (xs.drop (k - 1)) ?_ ?_
                · rw [List.length_drop]
                  simp only [List.length_cons] at hf
                  omega
                · rw [List.length_drop]
                  simp only [List.length_cons] at hg
                  omega

theorem chunksOf_cons (k : Nat) (hk : k ≠ 0) (x : α) (xs : List α) :
    chunksOf k (x :: xs)
      = (x :: xs.take (k - 1)) :: chunksOf k (xs.drop (k - 1)) := by
  rw [chunksOf, chunksOf,
    show chunksOfFuel k (x :: xs).length (x :: xs)
        = (x :: xs.take (k - 1))
            :: chunksOfFuel k xs.length (xs.drop (k - 1)) from by
      simp [chunksOfFuel, hk]]
  congr 1
  refine chunksOfFuel_congr k xs.length (xs.drop (k - 1)).length _ ?_ le_rfl
  rw [List.length_drop]
  omega

theorem chunksOf_length_mem (k m : Nat) (hk : 0 < k) :
    ∀ l : List α, l.length = m * k → ∀ c ∈ chunksOf k l, c.length = k := by
  induction m with
  | zero =>
      intro l hlen c hc
      have hnil : l = [] := List.length_eq_zero.mp (by omega)
      subst hnil
      rw [show chunksOf k ([] : List α) = [] from rfl] at hc
      cases hc
  | succ m ih =>
      intro l hlen c hc
      have hmul : (m + 1) * k = m * k + k := by ring
      cases l with
      | nil =>
          simp at hlen
          omega
      | cons x xs =>
          rw [chunksOf_cons k (by omega)] at hc
          rw [hmul] at hlen
          simp only [List.length_cons] at hlen
          rcases List.mem_cons.mp hc with rfl | hrest
          · simp only [List.length_cons, List.length_take]
            generalize m * k = t at hlen
            omega
          · refine ih (xs.drop (k - 1)) ?_ c hrest
            rw [List.length_drop]
            generalize m * k = t at hlen ⊢
            omega

theorem quotientValuesAt_spec [CommRing F] (P : Primitives F E Cap OP Inst)
    (stark : Stark F E Inst) (tc : Commitment F Cap)
    (public_inputs alphas : List F) (degree_bits rate_bits : Nat)
    (lagrange_first lagrange_last : List F) (i : Nat) :
    quotientValuesAt P stark tc public_inputs alphas degree_bits rate_bits
        lagrange_first lagrange_last i
      = specQuotientValuesAt P stark tc public_inputs alphas degree_bits
          rate_bits lagrange_first lagrange_last i := by
  simp only [quotientValuesAt, specQuotientValuesAt, accumulators_spec]

theorem quotientValuesAt_length [CommRing F]
    (P : Primitives F E Cap OP Inst) (stark : Stark F E Inst)
    (tc : Commitment F Cap) (public_inputs alphas : List F)
    (degree_bits rate_bits : Nat) (lagrange_first lagrange_last : List F)
    (i : Nat) :
    (quotientValuesAt P stark tc public_inputs alphas degree_bits rate_bits
        lagrange_first lagrange_last i).length = alphas.length := by
  rw [quotientValuesAt_spec]
  simp [specQuotientValuesAt, specCombined]

theorem computeQuotientPolys_spec [CommRing F]
    (P : Primitives F E Cap OP Inst) (stark : Stark F E Inst)
    (tc : Commitment F Cap) (public_inputs alphas : List F)
    (degree_bits rate_bits : Nat) :
    computeQuotientPolys P stark tc public_inputs alphas degree_bits
        rate_bits
      = specQuotientPolys P stark tc public_inputs alphas degree_bits
          rate_bits := by
  have h : quotientValuesAt P stark tc public_inputs alphas degree_bits
        rate_bits (lagrangeFirstLde P degree_bits rate_bits)
        (lagrangeLastLde P degree_bits rate_bits)
      = specQuotientValuesAt P stark tc public_inputs alphas degree_bits
          rate_bits (lagrangeFirstLde P degree_bits rate_bits)
          (lagrangeLastLde P degree_bits rate_bits) :=
    funext fun i => quotientValuesAt_spec P stark tc public_inputs alphas
      degree_bits rate_bits _ _ i
  simp only [computeQuotientPolys, specQuotientPolys, h]

theorem computeQuotientPolys_length [CommRing F]
    (P : Primitives F E Cap OP Inst) (stark : Stark F E Inst)
    (tc : Commitment F Cap) (public_inputs alphas : List F)
    (degree_bits rate_bits : Nat) :
    (computeQuotientPolys P stark tc public_inputs alphas degree_bits
        rate_bits).length = alphas.length := by
  have hn : 0 < (1 <<< degree_bits) <<< rate_bits := by
    simp [Nat.shiftLeft_eq]
  simp only [computeQuotientPolys, List.length_map, transposeM_length]
  rw [headD_map_range _ _ _ hn, quotientValuesAt_length]

theorem computeQuotientPolysSched_eq [CommRing F] (sched : List Nat)
    (P : Primitives F E Cap OP Inst) (stark : Stark F E Inst)
    (tc : Commitment F Cap) (public_inputs alphas : List F)
    (degree_bits rate_bits : Nat)
    (hcov : ∀ j < (1 <<< degree_bits) <<< rate_bits, j ∈ sched) :
    computeQuotientPolysSched sched P stark tc public_inputs alphas
        degree_bits rate_bits
      = computeQuotientPolys P stark tc public_inputs alphas degree_bits
          rate_bits := by
  simp only [computeQuotientPolysSched, computeQuotientPolys]
  congr 1
  congr 1
  refine List.map_congr_left fun j hj => ?_
  rw [lookup_map_pair _ _ _ (hcov j (List.mem_range.mp hj))]
  rfl

theorem proveSched_eq_prove [CommRing F] [DecidableEq F] [Mul E] [Add E]
    [Zero E] [One E] [DecidableEq E] (sched : List Nat)
    (P : Primitives F E Cap OP Inst) (stark : Stark F E Inst)
    (config : StarkConfig) (trace : List (List F))
    (public_inputs : List F)
    (hcov : ∀ j < trace.length <<< config.fri_config.rate_bits,
      j ∈ sched) :
    proveSched sched P stark config trace public_inputs
      = prove P stark config trace public_inputs := by
  cases hl : log2_strict trace.length with
  | error e => simp only [proveSched, prove, hl]
  | ok db =>
      have hlen : trace.length = 2 ^ db := (log2_strict_ok_iff _ _).mp hl
      have hsh : (1 : Nat) <<< db = trace.length := by
        rw [hlen, Nat.shiftLeft_eq, one_mul]
      simp only [proveSched, prove, hl]
      rw [computeQuotientPolysSched_eq sched P stark _ public_inputs _ db
        config.fri_config.rate_bits (by rw [hsh]; exact hcov)]

theorem prove_unfold_ok [CommRing F] [DecidableEq F] [Mul E] [Add E]
    [Zero E] [One E] [DecidableEq E] (P : Primitives F E Cap OP Inst)
    (stark : Stark F E Inst) (config : StarkConfig) (trace : List (List F))
    (public_inputs : List F) (db : Nat)
    (h1 : log2_strict trace.length = Except.ok db)
    (h2 : ∀ q ∈ quotientPolysOf P stark config trace public_inputs db,
      (trim q).length ≤ trace.length <<< config.fri_config.rate_bits) :
    prove P stark config trace public_inputs =
      if expPowerOf2 (zetaOf P stark config trace public_inputs db) db
          = (1 : E) then
        (Except.error (PErr.failed "Opening point is in the subgroup."),
         preLogOf P config trace ++
           [PEvent.commitCoeffs
              (allChunksOf P stark config trace public_inputs db)
              config.fri_config.rate_bits false
              config.fri_config.cap_height,
            PEvent.observeCap
              (quotientCommitmentOf P stark config trace public_inputs
                db).cap,
            PEvent.getExtChallenge
              (zetaOf P stark config trace public_inputs db)])
      else
        (Except.ok
          ⟨traceCapOf P config trace,
           StarkOpeningSet.new P.toExt
             (zetaOf P stark config trace public_inputs db)
             (P.primitiveRootOfUnity db)
             (traceCommitmentOf P config trace)
             (quotientCommitmentOf P stark config trace public_inputs db),
           P.proveOpenings
             (stark.friInstance
               (zetaOf P stark config trace public_inputs db)
               (P.primitiveRootOfUnity db) config.fri_config.rate_bits)
             [traceCommitmentOf P config trace,
              quotientCommitmentOf P stark config trace public_inputs db]
             (hist4Of P stark config trace public_inputs db)
             (config.friParams db)⟩,
         preLogOf P config trace ++
           [PEvent.commitCoeffs
              (allChunksOf P stark config trace public_inputs db)
              config.fri_config.rate_bits false
              config.fri_config.cap_height,
            PEvent.observeCap
              (quotientCommitmentOf P stark config trace public_inputs
                db).cap,
            PEvent.getExtChallenge
              (zetaOf P stark config trace public_inputs db),
            PEvent.buildOpenings, PEvent.friProve]) := by
  have hm : mapME
      (processQuotient trace.length
        (trace.length <<< config.fri_config.rate_bits))
      (quotientPolysOf P stark config trace public_inputs db)
      = Except.ok
        ((quotientPolysOf P stark config trace public_inputs db).map
          fun q => chunksOf trace.length
            (paddedOf (trace.length <<< config.fri_config.rate_bits)
              q)) := by
    refine mapME_ok _ _ _ fun q hq => ?_
    have hle := h2 q hq
    simp [processQuotient, padPoly, hle, expectE, paddedOf, Except.map]
  simp only [quotientPolysOf] at hm
  simp only [prove, h1, hm]
  simp only [zetaOf, hist3Of, hist4Of, quotientCommitmentOf, allChunksOf,
    quotientPolysOf, traceCapOf]
  rfl

theorem prove_unfold_padfail [CommRing F] [DecidableEq F] [Mul E] [Add E]
    [Zero E] [One E] [DecidableEq E] (P : Primitives F E Cap OP Inst)
    (stark : Stark F E Inst) (config : StarkConfig) (trace : List (List F))
    (public_inputs : List F) (db : Nat)
    (h1 : log2_strict trace.length = Except.ok db)
    (h2 : ∃ q ∈ quotientPolysOf P stark config trace public_inputs db,
      ¬(trim q).length ≤ trace.length <<< config.fri_config.rate_bits) :
    prove P stark config trace public_inputs =
      (Except.error (PErr.panicked
        "Quotient has failed, the vanishing polynomial is not divisible by `Z_H"),
       preLogOf P config trace) := by
  have hm : mapME
      (processQuotient trace.length
        (trace.length <<< config.fri_config.rate_bits))
      (quotientPolysOf P stark config trace public_inputs db)
      = Except.error (PErr.panicked
          "Quotient has failed, the vanishing polynomial is not divisible by `Z_H") := by
    refine mapME_error _
      (fun q => chunksOf trace.length
        (paddedOf (trace.length <<< config.fri_config.rate_bits) q))
      _ _ (fun q _ => ?_) ?_
    · by_cases hle : (trim q).length
          ≤ trace.length <<< config.fri_config.rate_bits
      · left
        simp [processQuotient, padPoly, hle, expectE, paddedOf, Except.map]
      · right
        simp [processQuotient, padPoly, hle, expectE, Except.map]
    · rcases h2 with ⟨q, hq, hgt⟩
      refine ⟨q, hq, ?_⟩
      simp [processQuotient, padPoly, hgt, expectE, Except.map]
  simp only [quotientPolysOf] at hm
  simp only [prove, h1, hm]

theorem prove_unfold_log2fail [CommRing F] [DecidableEq F] [Mul E] [Add E]
    [Zero E] [One E] [DecidableEq E] (P : Primitives F E Cap OP Inst)
    (stark : Stark F E Inst) (config : StarkConfig) (trace : List (List F))
    (public_inputs : List F) (h : ¬∃ k, trace.length = 2 ^ k) :
    prove P stark config trace public_inputs =
      (Except.error (PErr.panicked "Not a power of two"), []) := by
  simp only [prove, log2_strict_err trace.length h]

theorem getNChallenges_length (P : Primitives F E Cap OP Inst) :
    ∀ (n : Nat) (h : List (TEntry F E Cap)),
      (getNChallenges P n h).1.length = n := by
  intro n
  induction n with
  | zero => intro h; rfl
  | succ n ih =>
      intro h
      simp [getNChallenges, ih]

/-- C2: for every LDE-domain index, `compute_quotient_polys` builds a
constraint consumer seeded with the alpha vector and the values at the
index of the LDEs of the first and last Lagrange indicator polynomials,
lets the constraint system accumulate the alpha-combined constraint
values into it, multiplies each accumulator by the `Z_H` inverse at the
index, then transposes the per-point vectors into per-alpha value vectors
and coset-inverse-FFTs each, returning exactly one coefficient-form
polynomial per alpha. -/
theorem C2_quotient_pipeline [CommRing F] (P : Primitives F E Cap OP Inst)
    (stark : Stark F E Inst) (tc : Commitment F Cap)
    (public_inputs alphas : List F) (degree_bits rate_bits : Nat) :
    computeQuotientPolys P stark tc public_inputs alphas degree_bits
        rate_bits
      = specQuotientPolys P stark tc public_inputs alphas degree_bits
          rate_bits
    ∧ (computeQuotientPolys P stark tc public_inputs alphas degree_bits
        rate_bits).length = alphas.length :=
  ⟨computeQuotientPolys_spec P stark tc public_inputs alphas degree_bits
      rate_bits,
   computeQuotientPolys_length P stark tc public_inputs alphas degree_bits
      rate_bits⟩

/-- C5: for every LDE-domain index `i`, the local row handed to the
constraint evaluator is the trace commitment's LDE row at `i` and the next
row is its LDE row at `(i + 1) mod (degree << rate_bits)`; the next-row
lookup wraps modulo the LDE domain size, including at the last index. -/
theorem C5_next_row_wraps [CommRing F] (P : Primitives F E Cap OP Inst)
    (stark : Stark F E Inst) (tc : Commitment F Cap)
    (public_inputs alphas : List F) (degree_bits rate_bits : Nat)
    (lagrange_first lagrange_last : List F) (i : Nat)
    (h : i < (1 <<< degree_bits) <<< rate_bits) :
    quotientValuesAt P stark tc public_inputs alphas degree_bits rate_bits
        lagrange_first lagrange_last i
      = ((applyCmds
            (stark.evalPackedBase (tc.ldeValues i)
              (tc.ldeValues
                (if i + 1 = (1 <<< degree_bits) <<< rate_bits then 0
                 else i + 1))
              public_inputs)
            (ConstraintConsumer.new alphas (lagrange_first.getD i 0)
              (lagrange_last.getD i 0))).accumulators).map
          (fun e => e * P.zhInv degree_bits rate_bits i)
    ∧ (i + 1) % ((1 <<< degree_bits) <<< rate_bits)
        = if i + 1 = (1 <<< degree_bits) <<< rate_bits then 0 else i + 1 := by
  have hmod : (i + 1) % ((1 <<< degree_bits) <<< rate_bits)
      = if i + 1 = (1 <<< degree_bits) <<< rate_bits then 0 else i + 1 := by
    by_cases he : i + 1 = (1 <<< degree_bits) <<< rate_bits
    · rw [if_pos he, he, Nat.mod_self]
    · rw [if_neg he, Nat.mod_eq_of_lt (by omega)]
  exact ⟨by simp only [quotientValuesAt, hmod], hmod⟩

/-- Witness for C5 at the last index of a four-point LDE domain. -/
theorem C5_next_row_wraps_witness :
    3 < (1 <<< 1) <<< 1
    ∧ (quotientValuesAt tPrim tStark
          (traceCommitmentOf tPrim tConfig [[(0 : Int)], [1]]) [] [1] 1 1
          [1, 0, 1, 0] [0, 0, 1, 0] 3
        = ((applyCmds
              (tStark.evalPackedBase
                ((traceCommitmentOf tPrim tConfig
                  [[(0 : Int)], [1]]).ldeValues 3)
                ((traceCommitmentOf tPrim tConfig
                  [[(0 : Int)], [1]]).ldeValues
                  (if 3 + 1 = (1 <<< 1) <<< 1 then 0 else 3 + 1)) [])
              (ConstraintConsumer.new [1]
                (([1, 0, 1, 0] : List Int).getD 3 0)
                (([0, 0, 1, 0] : List Int).getD 3 0))).accumulators).map
            (fun e => e * tPrim.zhInv 1 1 3)
      ∧ (3 + 1) % ((1 <<< 1) <<< 1)
          = if 3 + 1 = (1 <<< 1) <<< 1 then 0 else 3 + 1) :=
  ⟨by decide,
   C5_next_row_wraps tPrim tStark
     (traceCommitmentOf tPrim tConfig [[(0 : Int)], [1]]) [] [1] 1 1
     [1, 0, 1, 0] [0, 0, 1, 0] 3 (by decide)⟩

/-- C8: two proving runs over identical inputs whose data-parallel quotient
evaluation executes under any two (covering) schedules produce identical
results: the proof output does not depend on the parallel execution
order. -/
theorem C8_schedule_determinism [CommRing F] [DecidableEq F] [CommRing E]
    [DecidableEq E] (P : Primitives F E Cap OP Inst)
    (stark : Stark F E Inst) (config : StarkConfig)
    (trace : List (List F)) (public_inputs : List F) (s1 s2 : List Nat)
    (h1 : ∀ j < trace.length <<< config.fri_config.rate_bits, j ∈ s1)
    (h2 : ∀ j < trace.length <<< config.fri_config.rate_bits, j ∈ s2) :
    proveSched s1 P stark config trace public_inputs
      = proveSched s2 P stark config trace public_inputs := by
  rw [proveSched_eq_prove s1 P stark config trace public_inputs h1,
    proveSched_eq_prove s2 P stark config trace public_inputs h2]

/-- Witness for C8 with two different covering schedules. -/
theorem C8_schedule_determinism_witness :
    (∀ j < ([[(0 : Int)], [1]] : List (List Int)).length
        <<< tConfig.fri_config.rate_bits, j ∈ [3, 2, 1, 0])
    ∧ (∀ j < ([[(0 : Int)], [1]] : List (List Int)).length
        <<< tConfig.fri_config.rate_bits, j ∈ [0, 1, 2, 3])
    ∧ proveSched [3, 2, 1, 0] tPrim tStark tConfig [[(0 : Int)], [1]] []
        = proveSched [0, 1, 2, 3] tPrim tStark tConfig
            [[(0 : Int)], [1]] [] :=
  ⟨by decide, by decide,
   C8_schedule_determinism tPrim tStark tConfig [[(0 : Int)], [1]] []
     [3, 2, 1, 0] [0, 1, 2, 3] (by decide) (by decide)⟩

/-- C9: when the trace row count is a power of two, `degree_bits` is
computed successfully and the pipeline proceeds (its first logged action is
the trace commitment call); when it is not, the computation fails
immediately — before any commitment or transcript activity — with a panic,
not a typed error result. -/
theorem C9_power_of_two_degree [CommRing F] [DecidableEq F] [CommRing E]
    [DecidableEq E] (P : Primitives F E Cap OP Inst)
    (stark : Stark F E Inst) (config : StarkConfig)
    (trace : List (List F)) (public_inputs : List F) :
    ((∃ k, trace.length = 2 ^ k) →
      log2_strict trace.length
          = Except.ok (log2Fuel trace.length trace.length)
      ∧ trace.length = 2 ^ log2Fuel trace.length trace.length
      ∧ (prove P stark config trace public_inputs).2.head?
          = some (PEvent.commitValues (tracePolyValues trace)
              config.fri_config.rate_bits false
              config.fri_config.cap_height))
    ∧ ((¬∃ k, trace.length = 2 ^ k) →
      prove P stark config trace public_inputs
          = (Except.error (PErr.panicked "Not a power of two"), [])
      ∧ isTypedFailure (prove P stark config trace public_inputs).1
          = false) := by
  constructor
  · intro hex
    have hpow := (pow_two_ex_iff _).mp hex
    have hok : log2_strict trace.length
        = Except.ok (log2Fuel trace.length trace.length) := by
      unfold log2_strict
      rw [if_pos hpow]
    refine ⟨hok, hpow, ?_⟩
    simp only [prove, hok]
    split
    · simp [preLogOf]
    · split
      · simp [preLogOf]
      · simp [preLogOf]
  · intro hnex
    have hkey := prove_unfold_log2fail P stark config trace public_inputs
      hnex
    rw [hkey]
    exact ⟨rfl, rfl⟩

/-- Witness for C9: a power-of-two trace proceeds, a three-row trace
panics before any logged activity. -/
theorem C9_power_of_two_degree_witness :
    (log2_strict ([[(0 : Int)], [1]] : List (List Int)).length
        = Except.ok (log2Fuel 2 2)
      ∧ ([[(0 : Int)], [1]] : List (List Int)).length = 2 ^ log2Fuel 2 2
      ∧ (prove tPrim tStark tConfig [[(0 : Int)], [1]] []).2.head?
          = some (PEvent.commitValues
              (tracePolyValues [[(0 : Int)], [1]])
              tConfig.fri_config.rate_bits false
              tConfig.fri_config.cap_height))
    ∧ (prove tPrim tStark tConfig [[(0 : Int)], [1], [2]] []
          = (Except.error (PErr.panicked "Not a power of two"), [])
      ∧ isTypedFailure
          (prove tPrim tStark tConfig [[(0 : Int)], [1], [2]] []).1
          = false) :=
  ⟨(C9_power_of_two_degree tPrim tStark tConfig [[(0 : Int)], [1]] []).1
      ⟨1, rfl⟩,
   (C9_power_of_two_degree tPrim tStark tConfig
      [[(0 : Int)], [1], [2]] []).2
      ((not_congr (pow_two_ex_iff 3)).mpr (by decide))⟩

/-- C10: every commitment call `prove` makes — the trace commitment from
values and the quotient commitment from coefficients — carries the
blinding flag `false`, in every execution and for every configuration. -/
theorem C10_blinding_always_false [CommRing F] [DecidableEq F] [CommRing E]
    [DecidableEq E] (P : Primitives F E Cap OP Inst)
    (stark : Stark F E Inst) (config : StarkConfig)
    (trace : List (List F)) (public_inputs : List F) (e : PEvent F E Cap)
    (he : e ∈ (prove P stark config trace public_inputs).2) :
    blindingArg e ≠ some true := by
  revert he
  cases hl : log2_strict trace.length with
  | error e0 =>
      simp only [prove, hl]
      intro he
      cases he
  | ok db =>
      simp only [prove, hl]
      split
      · intro he
        simp only [preLogOf, List.mem_cons, List.not_mem_nil,
          or_false] at he
        rcases he with rfl | rfl | rfl <;> simp [blindingArg]
      · split
        · intro he
          simp only [preLogOf, List.mem_append, List.mem_cons,
            List.not_mem_nil, or_false] at he
          rcases he with (rfl | rfl | rfl) | rfl | rfl | rfl <;>
            simp [blindingArg]
        · intro he
          simp only [preLogOf, List.mem_append, List.mem_cons,
            List.not_mem_nil, or_false] at he
          rcases he with ((rfl | rfl | rfl) | rfl | rfl | rfl) | rfl | rfl <;>
            simp [blindingArg]

/-- Witness for C10 at the logged trace commitment call. -/
theorem C10_blinding_always_false_witness :
    ((PEvent.commitValues [[(0 : Int), 1]] 1 false 0 : PEvent Int Int Int)
        ∈ (prove tPrim tStark tConfig [[(0 : Int)], [1]] []).2)
    ∧ blindingArg
        (PEvent.commitValues [[(0 : Int), 1]] 1 false 0 : PEvent Int Int Int)
        ≠ some true :=
  ⟨by decide,
   C10_blinding_always_false tPrim tStark tConfig [[(0 : Int)], [1]] []
     (PEvent.commitValues [[(0 : Int), 1]] 1 false 0) (by decide)⟩

/-- C1: under the preconditions that the trace length is a power of two and
that every trimmed quotient polynomial fits the padding target, `prove`
aborts with the hard error "Opening point is in the subgroup." exactly
when the derived `zeta` satisfies `zeta ^ degree = 1`; consequently every
returned proof has `zeta ^ degree ≠ 1`, and on the abort path the log
shows both commitment caps already observed and the opening set never
built. -/
theorem C1_zeta_subgroup_check [CommRing F] [DecidableEq F] [CommRing E]
    [DecidableEq E] (P : Primitives F E Cap OP Inst)
    (stark : Stark F E Inst) (config : StarkConfig)
    (trace : List (List F)) (public_inputs : List F) (db : Nat)
    (h1 : log2_strict trace.length = Except.ok db)
    (h2 : ∀ q ∈ quotientPolysOf P stark config trace public_inputs db,
      (trim q).length ≤ trace.length <<< config.fri_config.rate_bits) :
    ((prove P stark config trace public_inputs).1
        = Except.error (PErr.failed "Opening point is in the subgroup.")
      ↔ (zetaOf P stark config trace public_inputs db : E) ^ trace.length
          = 1)
    ∧ (∀ pf, (prove P stark config trace public_inputs).1 = Except.ok pf →
        (zetaOf P stark config trace public_inputs db : E) ^ trace.length
          ≠ 1)
    ∧ ((prove P stark config trace public_inputs).1
          = Except.error (PErr.failed "Opening point is in the subgroup.")
        → (prove P stark config trace public_inputs).2
              = preLogOf P config trace ++
                [PEvent.commitCoeffs
                    (allChunksOf P stark config trace public_inputs db)
                    config.fri_config.rate_bits false
                    config.fri_config.cap_height,
                 PEvent.observeCap
                    (quotientCommitmentOf P stark config trace
                      public_inputs db).cap,
                 PEvent.getExtChallenge
                    (zetaOf P stark config trace public_inputs db)]
          ∧ PEvent.buildOpenings
              ∉ (prove P stark config trace public_inputs).2) := by
  have hkey := prove_unfold_ok P stark config trace public_inputs db h1 h2
  have hlen : trace.length = 2 ^ db := (log2_strict_ok_iff _ _).mp h1
  have hzp : expPowerOf2
      (zetaOf P stark config trace public_inputs db : E) db
      = (zetaOf P stark config trace public_inputs db : E)
          ^ trace.length := by
    rw [expPowerOf2_eq_pow, hlen]
  by_cases hz : expPowerOf2
      (zetaOf P stark config trace public_inputs db : E) db = 1
  · rw [if_pos hz] at hkey
    refine ⟨⟨fun _ => ?_, fun _ => ?_⟩, fun pf hpf => ?_,
      fun _ => ⟨?_, ?_⟩⟩
    · rw [← hzp]
      exact hz
    · rw [hkey]
    · rw [hkey] at hpf
      exact absurd hpf (by simp)
    · rw [hkey]
    · rw [hkey]
      simp [preLogOf]
  · rw [if_neg hz] at hkey
    refine ⟨⟨fun hc => ?_, fun hc => ?_⟩, fun pf _ => ?_, fun hc => ?_⟩
    · rw [hkey] at hc
      exact absurd hc (by simp)
    · rw [← hzp] at hc
      exact absurd hc hz
    · rw [← hzp]
      exact hz
    · rw [hkey] at hc
      exact absurd hc (by simp)

/-- Witness for C1 on a two-row trace whose derived opening point lies off
the subgroup. -/
theorem C1_zeta_subgroup_check_witness :
    log2_strict ([[(0 : Int)], [1]] : List (List Int)).length
        = Except.ok 1
    ∧ (∀ q ∈ quotientPolysOf tPrim tStark tConfig [[(0 : Int)], [1]] [] 1,
        (trim q).length
          ≤ ([[(0 : Int)], [1]] : List (List Int)).length
              <<< tConfig.fri_config.rate_bits)
    ∧ (((prove tPrim tStark tConfig [[(0 : Int)], [1]] []).1
          = Except.error (PErr.failed "Opening point is in the subgroup."))
        ↔ (zetaOf tPrim tStark tConfig [[(0 : Int)], [1]] [] 1 : Int)
            ^ ([[(0 : Int)], [1]] : List (List Int)).length = 1) :=
  ⟨by decide, by decide,
   (C1_zeta_subgroup_check tPrim tStark tConfig [[(0 : Int)], [1]] [] 1
      (by decide) (by decide)).1⟩

/-- C3 (counterexample): a concrete run whose quotient polynomial exceeds
the padding target fails through a panic carrying the `expect` message,
not through a typed failure result — refuting the claim that this failure
is surfaced as a typed failure result rather than a panic. -/
theorem C3_counterexample :
    (prove tPrimBad tStark tConfig [[(0 : Int)]] []).1
        = Except.error (PErr.panicked
          "Quotient has failed, the vanishing polynomial is not divisible by `Z_H")
    ∧ isTypedFailure (prove tPrimBad tStark tConfig [[(0 : Int)]] []).1
        = false := by
  exact ⟨by decide, by decide⟩

/-- C3 (amended): when some quotient polynomial's trimmed coefficient list
exceeds the padding target `degree << rate_bits`, proving fails fatally —
but through a panic (`Result::expect`) carrying the descriptive message,
not through a typed failure result. -/
theorem C3_pad_overflow_panics [CommRing F] [DecidableEq F] [CommRing E]
    [DecidableEq E] (P : Primitives F E Cap OP Inst)
    (stark : Stark F E Inst) (config : StarkConfig)
    (trace : List (List F)) (public_inputs : List F) (db : Nat)
    (h1 : log2_strict trace.length = Except.ok db)
    (h2 : ∃ q ∈ quotientPolysOf P stark config trace public_inputs db,
      ¬(trim q).length ≤ trace.length <<< config.fri_config.rate_bits) :
    (prove P stark config trace public_inputs).1
        = Except.error (PErr.panicked
          "Quotient has failed, the vanishing polynomial is not divisible by `Z_H")
    ∧ isTypedFailure (prove P stark config trace public_inputs).1
        = false := by
  have hkey := prove_unfold_padfail P stark config trace public_inputs db
    h1 h2
  rw [hkey]
  exact ⟨rfl, rfl⟩

/-- Witness for the amended C3 on a one-row trace with an oversized
quotient polynomial. -/
theorem C3_pad_overflow_panics_witness :
    log2_strict ([[(0 : Int)]] : List (List Int)).length = Except.ok 0
    ∧ (∃ q ∈ quotientPolysOf tPrimBad tStark tConfig [[(0 : Int)]] [] 0,
        ¬(trim q).length
          ≤ ([[(0 : Int)]] : List (List Int)).length
              <<< tConfig.fri_config.rate_bits)
    ∧ (prove tPrimBad tStark tConfig [[(0 : Int)]] []).1
        = Except.error (PErr.panicked
          "Quotient has failed, the vanishing polynomial is not divisible by `Z_H") :=
  ⟨by decide, by decide,
   (C3_pad_overflow_panics tPrimBad tStark tConfig [[(0 : Int)]] [] 0
      (by decide) (by decide)).1⟩

/-- C4: on a successful run the transcript interactions are exactly:
observe the trace cap, derive `num_challenges` base-field challenges (one
element per challenge requested), observe the quotient cap, derive one
extension-field challenge, then hand the transcript to the batched-opening
sub-protocol; the quotient chunks committed before the quotient cap is
observed are computed from the derived alphas, with no transcript
operation reordered or inserted. -/
theorem C4_transcript_order [CommRing F] [DecidableEq F] [CommRing E]
    [DecidableEq E] (P : Primitives F E Cap OP Inst)
    (stark : Stark F E Inst) (config : StarkConfig)
    (trace : List (List F)) (public_inputs : List F) (db : Nat)
    (h1 : log2_strict trace.length = Except.ok db)
    (h2 : ∀ q ∈ quotientPolysOf P stark config trace public_inputs db,
      (trim q).length ≤ trace.length <<< config.fri_config.rate_bits)
    (h3 : expPowerOf2
      (zetaOf P stark config trace public_inputs db : E) db ≠ 1) :
    (prove P stark config trace public_inputs).2.filter
        (fun e => isTranscriptEvent e)
      = [PEvent.observeCap (traceCapOf P config trace),
         PEvent.getChallenges config.num_challenges
           (alphasOf P config trace),
         PEvent.observeCap
           (quotientCommitmentOf P stark config trace public_inputs
             db).cap,
         PEvent.getExtChallenge
           (zetaOf P stark config trace public_inputs db)]
    ∧ (alphasOf P config trace).length = config.num_challenges
    ∧ (prove P stark config trace public_inputs).2
        = preLogOf P config trace ++
          [PEvent.commitCoeffs
              (allChunksOf P stark config trace public_inputs db)
              config.fri_config.rate_bits false
              config.fri_config.cap_height,
           PEvent.observeCap
              (quotientCommitmentOf P stark config trace public_inputs
                db).cap,
           PEvent.getExtChallenge
              (zetaOf P stark config trace public_inputs db),
           PEvent.buildOpenings, PEvent.friProve]
    ∧ (prove P stark config trace public_inputs).1
        = Except.ok
          ⟨traceCapOf P config trace,
           StarkOpeningSet.new P.toExt
             (zetaOf P stark config trace public_inputs db)
             (P.primitiveRootOfUnity db)
             (traceCommitmentOf P config trace)
             (quotientCommitmentOf P stark config trace public_inputs db),
           P.proveOpenings
             (stark.friInstance
               (zetaOf P stark config trace public_inputs db)
               (P.primitiveRootOfUnity db) config.fri_config.rate_bits)
             [traceCommitmentOf P config trace,
              quotientCommitmentOf P stark config trace public_inputs db]
             (hist4Of P stark config trace public_inputs db)
             (config.friParams db)⟩ := by
  have hkey := prove_unfold_ok P stark config trace public_inputs db h1 h2
  rw [if_neg h3] at hkey
  refine ⟨?_, ?_, ?_, ?_⟩
  · rw [hkey]
    simp [preLogOf, isTranscriptEvent]
  · exact getNChallenges_length P config.num_challenges
      (hist1Of P config trace)
  · rw [hkey]
  · rw [hkey]

/-- Witness for C4 on a two-row trace. -/
theorem C4_transcript_order_witness :
    log2_strict ([[(0 : Int)], [1]] : List (List Int)).length
        = Except.ok 1
    ∧ (∀ q ∈ quotientPolysOf tPrim tStark tConfig [[(0 : Int)], [1]] [] 1,
        (trim q).length
          ≤ ([[(0 : Int)], [1]] : List (List Int)).length
              <<< tConfig.fri_config.rate_bits)
    ∧ expPowerOf2
        (zetaOf tPrim tStark tConfig [[(0 : Int)], [1]] [] 1 : Int) 1 ≠ 1
    ∧ (prove tPrim tStark tConfig [[(0 : Int)], [1]] []).2.filter
        (fun e => isTranscriptEvent e)
      = [PEvent.observeCap (traceCapOf tPrim tConfig [[(0 : Int)], [1]]),
         PEvent.getChallenges tConfig.num_challenges
           (alphasOf tPrim tConfig [[(0 : Int)], [1]]),
         PEvent.observeCap
           (quotientCommitmentOf tPrim tStark tConfig [[(0 : Int)], [1]]
             [] 1).cap,
         PEvent.getExtChallenge
           (zetaOf tPrim tStark tConfig [[(0 : Int)], [1]] [] 1)] :=
  ⟨by decide, by decide, by decide,
   (C4_transcript_order tPrim tStark tConfig [[(0 : Int)], [1]] [] 1
      (by decide) (by decide) (by decide)).1⟩

/-- C6: each quotient polynomial is trimmed, zero-padded to exactly
`degree << rate_bits` coefficients, split into `degree`-sized chunks; the
chunks of all alphas are flattened into one list and committed jointly
through the coefficient-domain commitment call with the configured
`rate_bits` and `cap_height`, after which that commitment's cap is
observed into the transcript. -/
theorem C6_quotient_chunking [CommRing F] [DecidableEq F] [CommRing E]
    [DecidableEq E] (P : Primitives F E Cap OP Inst)
    (stark : Stark F E Inst) (config : StarkConfig)
    (trace : List (List F)) (public_inputs : List F) (db : Nat)
    (h1 : log2_strict trace.length = Except.ok db)
    (h2 : ∀ q ∈ quotientPolysOf P stark config trace public_inputs db,
      (trim q).length ≤ trace.length <<< config.fri_config.rate_bits) :
    quotientCommitmentOf P stark config trace public_inputs db
        = P.fromCoeffs (allChunksOf P stark config trace public_inputs db)
            config.fri_config.rate_bits false config.fri_config.cap_height
    ∧ allChunksOf P stark config trace public_inputs db
        = ((quotientPolysOf P stark config trace public_inputs db).map
            fun q => chunksOf trace.length
              (paddedOf (trace.length <<< config.fri_config.rate_bits)
                q)).flatten
    ∧ (∀ q ∈ quotientPolysOf P stark config trace public_inputs db,
        (paddedOf (trace.length <<< config.fri_config.rate_bits) q).length
          = trace.length <<< config.fri_config.rate_bits)
    ∧ (∀ c ∈ allChunksOf P stark config trace public_inputs db,
        c.length = trace.length)
    ∧ (prove P stark config trace public_inputs).2
        = (preLogOf P config trace ++
            [PEvent.commitCoeffs
                (allChunksOf P stark config trace public_inputs db)
                config.fri_config.rate_bits false
                config.fri_config.cap_height,
             PEvent.observeCap
                (quotientCommitmentOf P stark config trace public_inputs
                  db).cap,
             PEvent.getExtChallenge
                (zetaOf P stark config trace public_inputs db)])
          ++ (if expPowerOf2
                (zetaOf P stark config trace public_inputs db : E) db = 1
              then []
              else [PEvent.buildOpenings, PEvent.friProve]) := by
  have hkey := prove_unfold_ok P stark config trace public_inputs db h1 h2
  have hlen : trace.length = 2 ^ db := (log2_strict_ok_iff _ _).mp h1
  refine ⟨rfl, rfl, ?_, ?_, ?_⟩
  · intro q hq
    exact paddedOf_length _ _ (h2 q hq)
  · intro c hc
    rw [allChunksOf] at hc
    rcases List.mem_flatten.mp hc with ⟨l, hl, hcl⟩
    rcases List.mem_map.mp hl with ⟨q, hq, rfl⟩
    refine chunksOf_length_mem trace.length
      (2 ^ config.fri_config.rate_bits) (by rw [hlen]; positivity) _ ?_ c
      hcl
    rw [paddedOf_length _ _ (h2 q hq), Nat.shiftLeft_eq, Nat.mul_comm]
  · by_cases hz : expPowerOf2
        (zetaOf P stark config trace public_inputs db : E) db = 1
    · rw [if_pos hz] at hkey
      rw [hkey, if_pos hz, List.append_nil]
    · rw [if_neg hz] at hkey
      rw [hkey, if_neg hz]
      simp

/-- Witness for C6 on a two-row trace. -/
theorem C6_quotient_chunking_witness :
    log2_strict ([[(0 : Int)], [1]] : List (List Int)).length
        = Except.ok 1
    ∧ (∀ q ∈ quotientPolysOf tPrim tStark tConfig [[(0 : Int)], [1]] [] 1,
        (trim q).length
          ≤ ([[(0 : Int)], [1]] : List (List Int)).length
              <<< tConfig.fri_config.rate_bits)
    ∧ (∀ c ∈ allChunksOf tPrim tStark tConfig [[(0 : Int)], [1]] [] 1,
        c.length = ([[(0 : Int)], [1]] : List (List Int)).length) :=
  ⟨by decide, by decide,
   (C6_quotient_chunking tPrim tStark tConfig [[(0 : Int)], [1]] [] 1
      (by decide) (by decide)).2.2.2.1⟩

/-- C7: the proof returned by `prove` is exactly the triple of the trace
cap (the cap observed as the first transcript operation), the opening set
of evaluations of the committed trace and quotient polynomials at `zeta`
and `g * zeta` for `g` the primitive root of unity of order `degree`, and
the opaque batched opening proof. -/
theorem C7_proof_assembly [CommRing F] [DecidableEq F] [CommRing E]
    [DecidableEq E] (P : Primitives F E Cap OP Inst)
    (stark : Stark F E Inst) (config : StarkConfig)
    (trace : List (List F)) (public_inputs : List F) (db : Nat)
    (h1 : log2_strict trace.length = Except.ok db)
    (h2 : ∀ q ∈ quotientPolysOf P stark config trace public_inputs db,
      (trim q).length ≤ trace.length <<< config.fri_config.rate_bits)
    (h3 : expPowerOf2
      (zetaOf P stark config trace public_inputs db : E) db ≠ 1) :
    (prove P stark config trace public_inputs).1
        = Except.ok
          ⟨traceCapOf P config trace,
           StarkOpeningSet.new P.toExt
             (zetaOf P stark config trace public_inputs db)
             (P.primitiveRootOfUnity db)
             (traceCommitmentOf P config trace)
             (quotientCommitmentOf P stark config trace public_inputs db),
           P.proveOpenings
             (stark.friInstance
               (zetaOf P stark config trace public_inputs db)
               (P.primitiveRootOfUnity db) config.fri_config.rate_bits)
             [traceCommitmentOf P config trace,
              quotientCommitmentOf P stark config trace public_inputs db]
             (hist4Of P stark config trace public_inputs db)
             (config.friParams db)⟩
    ∧ StarkOpeningSet.new P.toExt
        (zetaOf P stark config trace public_inputs db)
        (P.primitiveRootOfUnity db) (traceCommitmentOf P config trace)
        (quotientCommitmentOf P stark config trace public_inputs db)
        = ⟨((traceCommitmentOf P config trace).polynomials
              ++ (quotientCommitmentOf P stark config trace public_inputs
                    db).polynomials).map
             (evalAt P.toExt
               (zetaOf P stark config trace public_inputs db)),
           ((traceCommitmentOf P config trace).polynomials
              ++ (quotientCommitmentOf P stark config trace public_inputs
                    db).polynomials).map
             (evalAt P.toExt
               (P.primitiveRootOfUnity db
                 * zetaOf P stark config trace public_inputs db))⟩
    ∧ ((prove P stark config trace public_inputs).2.filter
          (fun e => isTranscriptEvent e)).head?
        = some (PEvent.observeCap (traceCapOf P config trace)) := by
  have hkey := prove_unfold_ok P stark config trace public_inputs db h1 h2
  rw [if_neg h3] at hkey
  refine ⟨?_, rfl, ?_⟩
  · rw [hkey]
  · rw [hkey]
    simp [preLogOf, isTranscriptEvent]

/-- Witness for C7 on a two-row trace. -/
theorem C7_proof_assembly_witness :
    log2_strict ([[(0 : Int)], [1]] : List (List Int)).length
        = Except.ok 1
    ∧ (∀ q ∈ quotientPolysOf tPrim tStark tConfig [[(0 : Int)], [1]] [] 1,
        (trim q).length
          ≤ ([[(0 : Int)], [1]] : List (List Int)).length
              <<< tConfig.fri_config.rate_bits)
    ∧ expPowerOf2
        (zetaOf tPrim tStark tConfig [[(0 : Int)], [1]] [] 1 : Int) 1 ≠ 1
    ∧ (prove tPrim tStark tConfig [[(0 : Int)], [1]] []).1
        = Except.ok
          ⟨traceCapOf tPrim tConfig [[(0 : Int)], [1]],
           StarkOpeningSet.new tPrim.toExt
             (zetaOf tPrim tStark tConfig [[(0 : Int)], [1]] [] 1)
             (tPrim.primitiveRootOfUnity 1)
             (traceCommitmentOf tPrim tConfig [[(0 : Int)], [1]])
             (quotientCommitmentOf tPrim tStark tConfig
               [[(0 : Int)], [1]] [] 1),
           tPrim.proveOpenings
             (tStark.friInstance
               (zetaOf tPrim tStark tConfig [[(0 : Int)], [1]] [] 1)
               (tPrim.primitiveRootOfUnity 1)
               tConfig.fri_config.rate_bits)
             [traceCommitmentOf tPrim tConfig [[(0 : Int)], [1]],
              quotientCommitmentOf tPrim tStark tConfig
                [[(0 : Int)], [1]] [] 1]
             (hist4Of tPrim tStark tConfig [[(0 : Int)], [1]] [] 1)
             (tConfig.friParams 1)⟩ :=
  ⟨by decide, by decide, by decide,
   (C7_proof_assembly tPrim tStark tConfig [[(0 : Int)], [1]] [] 1
      (by decide) (by decide) (by decide)).1⟩

end Starky
